import Mathlib

/-!
Shallow embedding of the math-stats repository (Go, three source files).

Sources: maths-stats-v3.go (streaming engine with a ring buffer of recent
data, per-field locks, and a cached-stats layer), src/unnamed/part_001 (an
earlier engine balancing the two median heaps by direct size comparison
and keeping a fully sorted slice for percentiles), src/unnamed/part_000
(benchmarks only, no engine code).

Modelling conventions: float64 values are modelled as rationals; the Go
int and int64 counters as Int; Go slices as lists.  Methods that mutate
the receiver are state passing.  Code paths that panic in Go, namely an
index out of range and an assignment to an entry in a nil map, are
modelled with Option, with none standing for the panic.  The library sort
of sort.Float64s is modelled extensionally by insertion sort, and the
heap algorithm of container/heap, shared by both engine files, is
translated operation by operation below.
-/

namespace GoHeap

/-- Swap the entries at positions i and j of a list, as h.Swap does on the
Go heap slice.  Both call sites pass indices that are in bounds. -/
def listSwap (l : List ℚ) (i j : ℕ) : List ℚ :=
  (l.set i (l.getD j 0)).set j (l.getD i 0)

/-- The sift-up loop of container/heap (function up).  The loop moves the
index j to its parent (j - 1) / 2 while the comparator holds, so it makes
at most j steps; the explicit fuel argument, always called with j + 1,
makes the recursion structural without changing the computed value. -/
def upFrom (less : ℚ → ℚ → Bool) : ℕ → List ℚ → ℕ → List ℚ
  | 0, l, _ => l
  | fuel + 1, l, j =>
    if j = 0 then l
    else
      let i := (j - 1) / 2
      if less (l.getD j 0) (l.getD i 0) then upFrom less fuel (listSwap l i j) i
      else l

/-- Go container/heap up(h, j). -/
def up (less : ℚ → ℚ → Bool) (l : List ℚ) (j : ℕ) : List ℚ :=
  upFrom less (j + 1) l j

/-- The sift-down loop of container/heap (function down).  The index i
strictly increases towards n, so n steps of fuel always suffice. -/
def downFrom (less : ℚ → ℚ → Bool) : ℕ → List ℚ → ℕ → ℕ → List ℚ
  | 0, l, _, _ => l
  | fuel + 1, l, i, n =>
    let j1 := 2 * i + 1
    if j1 < n then
      let j := if 2 * i + 2 < n ∧ less (l.getD (2 * i + 2) 0) (l.getD j1 0)
               then 2 * i + 2 else j1
      if less (l.getD j 0) (l.getD i 0) then downFrom less fuel (listSwap l i j) j n
      else l
    else l

/-- Go container/heap down(h, i, n); the Boolean result of the Go function
is unused by heap.Pop and is dropped. -/
def down (less : ℚ → ℚ → Bool) (l : List ℚ) (i n : ℕ) : List ℚ :=
  downFrom less n l i n

/-- Go heap.Push: append the value (the Push method of MinHeap and
MaxHeap), then sift up from the last index Len() - 1. -/
def push (less : ℚ → ℚ → Bool) (l : List ℚ) (x : ℚ) : List ℚ :=
  up less (l ++ [x]) l.length

/-- Go heap.Pop: swap the root with the last element, sift down over the
first Len() - 1 entries, then remove and return the last element (the Pop
method of MinHeap and MaxHeap). -/
def pop (less : ℚ → ℚ → Bool) (l : List ℚ) : ℚ × List ℚ :=
  let n := l.length - 1
  let l2 := down less (listSwap l 0 n) 0 n
  (l2.getD n 0, l2.take n)

end GoHeap

/-- The Less method of MinHeap, identical in both engine files:
h(i) < h(j). -/
def minHeapLess (a b : ℚ) : Bool := decide (a < b)

/-- The Less method of MaxHeap, identical in both engine files:
h(i) > h(j). -/
def maxHeapLess (a b : ℚ) : Bool := decide (b < a)

/-- The true median of a finite history, as the specification defines it:
the middle element of the full ascending sort for an odd count, the
average of the two middle elements for an even count, and 0 for an empty
history.  This is the reference value the engine is compared against. -/
def trueMedian (xs : List ℚ) : ℚ :=
  let sorted := List.insertionSort (· ≤ ·) xs
  let n := xs.length
  if n = 0 then 0
  else if n % 2 = 1 then sorted.getD (n / 2) 0
  else (sorted.getD (n / 2 - 1) 0 + sorted.getD (n / 2) 0) / 2

namespace V3

/-- RingBuffer for storing recent data (maths-stats-v3.go). -/
structure RingBuffer where
  data : List ℚ
  head : ℕ
  size : ℕ
  cap : ℕ
  deriving DecidableEq

/-- NewRingBuffer: a zeroed slice of the given capacity. -/
def NewRingBuffer (cap : ℕ) : RingBuffer :=
  { data := List.replicate cap 0, head := 0, size := 0, cap := cap }

/-- RingBuffer.Add: overwrite the slot at head, advance head modulo the
capacity, grow size until it reaches the capacity. -/
def RingBuffer.Add (rb : RingBuffer) (val : ℚ) : RingBuffer :=
  { data := rb.data.set rb.head val
    head := (rb.head + 1) % rb.cap
    size := if rb.size < rb.cap then rb.size + 1 else rb.size
    cap := rb.cap }

/-- RingBuffer.GetSorted: copy the first size entries and sort them
ascending (sort.Float64s); the buffer itself is left unchanged, which the
pair result records. -/
def RingBuffer.GetSorted (rb : RingBuffer) : List ℚ × RingBuffer :=
  (List.insertionSort (· ≤ ·) (rb.data.take rb.size), rb)

/-- CachedStats for quick read-heavy queries.  The percentile field is a
Go map; none models the nil map that a zero-valued CachedStats holds. -/
structure CachedStats where
  mean : ℚ
  median : ℚ
  percentile : Option (List (Int × ℚ))
  deriving DecidableEq

/-- Update one key of a Go map modelled as an association list. -/
def mapSet (m : List (Int × ℚ)) (k : Int) (v : ℚ) : List (Int × ℚ) :=
  if m.any (fun e => e.1 = k) then m.map (fun e => if e.1 = k then (k, v) else e)
  else m ++ [(k, v)]

/-- DataStreamStats tracks streaming statistics (maths-stats-v3.go).  The
four mutexes guard disjoint field groups and carry no state of their own,
so they do not appear in the sequential model. -/
structure DataStreamStats where
  totalSum : ℚ
  count : ℤ
  minVal : WithTop ℚ
  maxVal : WithBot ℚ
  lower : List ℚ
  upper : List ℚ
  recentData : RingBuffer
  balanceCounter : ℤ
  cached : CachedStats
  cacheUpdated : Bool
  cachePercentile : List (Int × ℚ)
  deriving DecidableEq

/-- NewDataStreamStats: minVal starts at plus infinity and maxVal at minus
infinity; the cached field keeps its Go zero value, whose percentile map
is nil (none); only the separate cachePercentile field is allocated. -/
def NewDataStreamStats (capacity : ℕ) : DataStreamStats :=
  { totalSum := 0
    count := 0
    minVal := ⊤
    maxVal := ⊥
    lower := []
    upper := []
    recentData := NewRingBuffer capacity
    balanceCounter := 0
    cached := { mean := 0, median := 0, percentile := none }
    cacheUpdated := false
    cachePercentile := [] }

/-- Balance heaps for median calculation (balanceHeaps): one corrective
move when the signed counter leaves the band, and the counter is adjusted
by one per move. -/
def balanceHeaps (ds : DataStreamStats) : DataStreamStats :=
  if 1 < ds.balanceCounter then
    let r := GoHeap.pop maxHeapLess ds.lower
    { ds with lower := r.2, upper := GoHeap.push minHeapLess ds.upper r.1,
              balanceCounter := ds.balanceCounter - 1 }
  else if ds.balanceCounter < -1 then
    let r := GoHeap.pop minHeapLess ds.upper
    { ds with upper := r.2, lower := GoHeap.push maxHeapLess ds.lower r.1,
              balanceCounter := ds.balanceCounter + 1 }
  else ds

/-- AddNumber adds a number and updates statistics: the running aggregate,
then the heaps with the signed counter and a balancing pass, then the ring
buffer of recent data, and finally the cache invalidation flag.  Peek of
the lower heap is guarded by the emptiness test, exactly as the
short-circuit disjunction in the source guards it. -/
def AddNumber (ds : DataStreamStats) (num : ℚ) : DataStreamStats :=
  let ds1 : DataStreamStats :=
    { ds with
      totalSum := ds.totalSum + num
      count := ds.count + 1
      minVal := if (num : WithTop ℚ) < ds.minVal then (num : WithTop ℚ) else ds.minVal
      maxVal := if ds.maxVal < (num : WithBot ℚ) then (num : WithBot ℚ) else ds.maxVal }
  let ds2 : DataStreamStats :=
    if ds1.lower.length = 0 ∨ num ≤ ds1.lower.getD 0 0 then
      { ds1 with lower := GoHeap.push maxHeapLess ds1.lower num,
                 balanceCounter := ds1.balanceCounter + 1 }
    else
      { ds1 with upper := GoHeap.push minHeapLess ds1.upper num,
                 balanceCounter := ds1.balanceCounter - 1 }
  let ds3 := balanceHeaps ds2
  let ds4 : DataStreamStats := { ds3 with recentData := ds3.recentData.Add num }
  { ds4 with cacheUpdated := false }

/-- GetMean: totalSum / count, and 0 for an empty stream.  The state
component records that the query writes nothing. -/
def GetMean (ds : DataStreamStats) : ℚ × DataStreamStats :=
  (if ds.count = 0 then 0 else ds.totalSum / (ds.count : ℚ), ds)

/-- GetMedian: 0 for an empty stream, the peek of the lower heap when it
is the larger one, otherwise the average of the two peeks.  Peek reads
index 0 of the heap slice and panics on an empty heap, hence the Option
result. -/
def GetMedian (ds : DataStreamStats) : Option ℚ × DataStreamStats :=
  (if ds.count = 0 then some 0
   else if ds.upper.length < ds.lower.length then ds.lower[0]?
   else
     match ds.lower[0]?, ds.upper[0]? with
     | some a, some b => some ((a + b) / 2)
     | _, _ => none, ds)

/-- GetMin returns the running minimum, plus infinity before any data. -/
def GetMin (ds : DataStreamStats) : WithTop ℚ × DataStreamStats :=
  (ds.minVal, ds)

/-- GetMax returns the running maximum, minus infinity before any data. -/
def GetMax (ds : DataStreamStats) : WithBot ℚ × DataStreamStats :=
  (ds.maxVal, ds)

/-- GetPercentile: sort the retained window, return 0 on an empty window,
otherwise index the sorted snapshot at ceil(p / 100 * size) - 1 clamped
below by 0.  The index is not clamped above, so a rank above 100 runs off
the end of the slice and panics, which the Option records. -/
def GetPercentile (ds : DataStreamStats) (p : ℚ) : Option ℚ × DataStreamStats :=
  let sorted := (ds.recentData.GetSorted).1
  (if sorted.length = 0 then some 0
   else
     let index : ℤ := ⌈p / 100 * (sorted.length : ℚ)⌉ - 1
     let clamped := if index < 0 then 0 else index
     sorted[clamped.toNat]?, ds)

/-- GetCachedStats: serve the snapshot unchanged while the flag is set;
otherwise recompute the mean, the median and the 95th and 99th percentile
ranks, store them, set the flag and return the snapshot.  The stores go
through the percentile map of the cached field, which NewDataStreamStats
never allocates, so the first store is an assignment to an entry in a nil
map; evaluation order follows the source, and none models the panic. -/
def GetCachedStats (ds : DataStreamStats) : Option (CachedStats × DataStreamStats) :=
  if ds.cacheUpdated then some (ds.cached, ds)
  else
    let mean := (GetMean ds).1
    match (GetMedian ds).1 with
    | none => none
    | some med =>
      match (GetPercentile ds 95).1 with
      | none => none
      | some q95 =>
        match ds.cached.percentile with
        | none => none
        | some pm =>
          let pm1 := mapSet pm 95 q95
          match (GetPercentile ds 99).1 with
          | none => none
          | some q99 =>
            let pm2 := mapSet pm1 99 q99
            let fresh : CachedStats := { mean := mean, median := med, percentile := some pm2 }
            some (fresh, { ds with cached := fresh, cacheUpdated := true })

/-- Feed a finite stream into a fresh engine, one AddNumber per value, as
the driver loop in main does. -/
def runStream (capacity : ℕ) (xs : List ℚ) : DataStreamStats :=
  xs.foldl AddNumber (NewDataStreamStats capacity)

/-- Modelled from the spec: the design notes describe the signed counter
scheme as a counter incremented or decremented on each insert and
corrected by at most one move per call, claimed to converge to the same
invariant as direct size comparison.  This is balanceHeaps with the
counter kept equal to the size difference between the heaps: a corrective
move changes that difference by two, so it adjusts the counter by two,
and the two thresholds match the direct comparisons of part_001. -/
def balanceHeapsFixed (ds : DataStreamStats) : DataStreamStats :=
  if 1 < ds.balanceCounter then
    let r := GoHeap.pop maxHeapLess ds.lower
    { ds with lower := r.2, upper := GoHeap.push minHeapLess ds.upper r.1,
              balanceCounter := ds.balanceCounter - 2 }
  else if ds.balanceCounter < 0 then
    let r := GoHeap.pop minHeapLess ds.upper
    { ds with upper := r.2, lower := GoHeap.push maxHeapLess ds.lower r.1,
              balanceCounter := ds.balanceCounter + 2 }
  else ds

/-- Modelled from the spec: AddNumber with the corrected counter
maintenance of balanceHeapsFixed in place of balanceHeaps; every other
step is the body of AddNumber unchanged. -/
def AddNumberFixed (ds : DataStreamStats) (num : ℚ) : DataStreamStats :=
  let ds1 : DataStreamStats :=
    { ds with
      totalSum := ds.totalSum + num
      count := ds.count + 1
      minVal := if (num : WithTop ℚ) < ds.minVal then (num : WithTop ℚ) else ds.minVal
      maxVal := if ds.maxVal < (num : WithBot ℚ) then (num : WithBot ℚ) else ds.maxVal }
  let ds2 : DataStreamStats :=
    if ds1.lower.length = 0 ∨ num ≤ ds1.lower.getD 0 0 then
      { ds1 with lower := GoHeap.push maxHeapLess ds1.lower num,
                 balanceCounter := ds1.balanceCounter + 1 }
    else
      { ds1 with upper := GoHeap.push minHeapLess ds1.upper num,
                 balanceCounter := ds1.balanceCounter - 1 }
  let ds3 := balanceHeapsFixed ds2
  let ds4 : DataStreamStats := { ds3 with recentData := ds3.recentData.Add num }
  { ds4 with cacheUpdated := false }

/-- Feed a finite stream into a fresh engine driven by AddNumberFixed. -/
def runStreamFixed (capacity : ℕ) (xs : List ℚ) : DataStreamStats :=
  xs.foldl AddNumberFixed (NewDataStreamStats capacity)

end V3

namespace Part001

/-- DataStreamStats of src/unnamed/part_001: one mutex, the running
aggregate, the two median heaps, and a fully sorted slice of every value
seen. -/
structure DataStreamStats where
  totalSum : ℚ
  count : ℤ
  minVal : WithTop ℚ
  maxVal : WithBot ℚ
  lower : List ℚ
  upper : List ℚ
  sorted : List ℚ
  deriving DecidableEq

/-- NewDataStreamStats of part_001. -/
def NewDataStreamStats : DataStreamStats :=
  { totalSum := 0, count := 0, minVal := ⊤, maxVal := ⊥,
    lower := [], upper := [], sorted := [] }

/-- sort.SearchFloat64s: the least index whose entry is at least x, or the
length when there is none; on a sorted slice this is the insertion
point. -/
def searchFloat64s (l : List ℚ) (x : ℚ) : ℕ :=
  (l.takeWhile (fun y => decide (y < x))).length

/-- AddNumber of part_001: update the aggregate, insert into the proper
heap, rebalance by comparing the two heap sizes directly, and insert the
value into the sorted slice at the index found by binary search. -/
def AddNumber (ds : DataStreamStats) (num : ℚ) : DataStreamStats :=
  let ds1 : DataStreamStats :=
    { ds with
      totalSum := ds.totalSum + num
      count := ds.count + 1
      minVal := if (num : WithTop ℚ) < ds.minVal then (num : WithTop ℚ) else ds.minVal
      maxVal := if ds.maxVal < (num : WithBot ℚ) then (num : WithBot ℚ) else ds.maxVal }
  let ds2 : DataStreamStats :=
    if ds1.lower.length = 0 ∨ num ≤ ds1.lower.getD 0 0 then
      { ds1 with lower := GoHeap.push maxHeapLess ds1.lower num }
    else
      { ds1 with upper := GoHeap.push minHeapLess ds1.upper num }
  let ds3 : DataStreamStats :=
    if ds2.upper.length + 1 < ds2.lower.length then
      let r := GoHeap.pop maxHeapLess ds2.lower
      { ds2 with lower := r.2, upper := GoHeap.push minHeapLess ds2.upper r.1 }
    else if ds2.lower.length < ds2.upper.length then
      let r := GoHeap.pop minHeapLess ds2.upper
      { ds2 with upper := r.2, lower := GoHeap.push maxHeapLess ds2.lower r.1 }
    else ds2
  let idx := searchFloat64s ds3.sorted num
  { ds3 with sorted := ds3.sorted.take idx ++ num :: ds3.sorted.drop idx }

/-- GetMedian of part_001, identical in shape to the v3 query. -/
def GetMedian (ds : DataStreamStats) : Option ℚ × DataStreamStats :=
  (if ds.count = 0 then some 0
   else if ds.upper.length < ds.lower.length then ds.lower[0]?
   else
     match ds.lower[0]?, ds.upper[0]? with
     | some a, some b => some ((a + b) / 2)
     | _, _ => none, ds)

/-- Feed a finite stream into a fresh part_001 engine. -/
def runStream (xs : List ℚ) : DataStreamStats :=
  xs.foldl AddNumber NewDataStreamStats

end Part001

/-- The retained window as the specification describes it: the
min(capacity, n) most recently recorded values, oldest first. -/
def specWindow (capacity : ℕ) (xs : List ℚ) : List ℚ :=
  xs.drop (xs.length - capacity)

/-- The ascending sort of the retained window, the snapshot the
specification indexes with the nearest-rank formula. -/
def specSortedWindow (capacity : ℕ) (xs : List ℚ) : List ℚ :=
  List.insertionSort (· ≤ ·) (specWindow capacity xs)

namespace V3

/-- Layout invariant of the ring buffer after the values xs have been
added in order: while the buffer is filling, the data slice is the input
followed by the untouched zero padding; once it has wrapped, the data
slice is a rotation of the retained window, split at the head index. -/
def RBInv (c : ℕ) (xs : List ℚ) (rb : RingBuffer) : Prop :=
  rb.cap = c ∧ rb.data.length = c ∧
  (if xs.length < c then
    rb.data = xs ++ List.replicate (c - xs.length) 0 ∧
      rb.head = xs.length ∧ rb.size = xs.length
   else ∃ A B, specWindow c xs = A ++ B ∧ rb.data = B ++ A ∧
      B.length = xs.length % c ∧ rb.head = xs.length % c ∧ rb.size = c)

end V3

/-- C1: GetMedian does not return the true median of the full history.
After recording 3, 2, 1 the engine answers 3 / 2, while the full
ascending sort of the history has middle element 2; the empty engine does
return 0 as claimed.  The signed counter of balanceHeaps drifts away from
the actual size difference, leaving the extra elements in the upper heap
while GetMedian assumes they sit in the lower one. -/
theorem c1_getMedian_not_true_median :
    (V3.GetMedian (V3.runStream 5 [3, 2, 1])).1 = some (3 / 2) ∧
    trueMedian [3, 2, 1] = 2 ∧ ((3 : ℚ) / 2) ≠ 2 ∧
    (V3.GetMedian (V3.runStream 5 [])).1 = some 0 := by
  with_unfolding_all decide

/-- C2: the heap balance invariant fails.  After recording 3, 2, 1, 0 the
lower heap holds one element and the upper heap three, a size difference
of two, because each corrective move of balanceHeaps changes the size
difference by two but the counter by only one. -/
theorem c2_heap_balance_violated :
    (V3.runStream 5 [3, 2, 1, 0]).lower.length = 1 ∧
    (V3.runStream 5 [3, 2, 1, 0]).upper.length = 3 := by
  with_unfolding_all decide

/-- C5 counterexample: the signed-counter scheme of maths-stats-v3.go and
the direct size comparison of part_001 disagree already on the input
3, 2, 1: the former ends with heap sizes 1 and 2 and median 3 / 2, the
latter with heap sizes 2 and 1 and median 2. -/
theorem c5_counter_scheme_differs_from_direct :
    (V3.runStream 5 [3, 2, 1]).lower.length = 1 ∧
    (V3.runStream 5 [3, 2, 1]).upper.length = 2 ∧
    (Part001.runStream [3, 2, 1]).lower.length = 2 ∧
    (Part001.runStream [3, 2, 1]).upper.length = 1 ∧
    (V3.GetMedian (V3.runStream 5 [3, 2, 1])).1 = some (3 / 2) ∧
    (Part001.GetMedian (Part001.runStream [3, 2, 1])).1 = some 2 := by
  with_unfolding_all decide

/-- C9 counterexample: a rank at or below 0 is not rejected.  With window
content 1, 2 the call GetPercentile 0 clamps the index to 0 and returns
the window minimum 1 instead of failing. -/
theorem c9_rank_zero_not_rejected :
    (V3.GetPercentile (V3.runStream 5 [1, 2]) 0).1 = some 1 := by
  with_unfolding_all decide

/-- C10: every query leaves the engine state unchanged: GetMean,
GetMedian, GetMin, GetMax and GetPercentile return the very state they
were given, and GetSorted returns the ring buffer unchanged because it
sorts a fresh copy of the window. -/
theorem c10_queries_leave_state_unchanged
    (ds : V3.DataStreamStats) (p : ℚ) (rb : V3.RingBuffer) :
    (V3.GetMean ds).2 = ds ∧ (V3.GetMedian ds).2 = ds ∧
    (V3.GetMin ds).2 = ds ∧ (V3.GetMax ds).2 = ds ∧
    (V3.GetPercentile ds p).2 = ds ∧ (V3.RingBuffer.GetSorted rb).2 = rb :=
  ⟨rfl, rfl, rfl, rfl, rfl, rfl⟩

namespace GoHeap

lemma listSwap_length (l : List ℚ) (i j : ℕ) : (listSwap l i j).length = l.length := by
  simp [listSwap]

lemma upFrom_length (less : ℚ → ℚ → Bool) (fuel : ℕ) :
    ∀ (l : List ℚ) (j : ℕ), (upFrom less fuel l j).length = l.length := by
  induction fuel with
  | zero => intro l j; rfl
  | succ n ih =>
    intro l j
    unfold upFrom
    dsimp only
    split
    · rfl
    · split
      · rw [ih, listSwap_length]
      · rfl

lemma downFrom_length (less : ℚ → ℚ → Bool) (fuel : ℕ) :
    ∀ (l : List ℚ) (i n : ℕ), (downFrom less fuel l i n).length = l.length := by
  induction fuel with
  | zero => intro l i n; rfl
  | succ m ih =>
    intro l i n
    unfold downFrom
    dsimp only
    split
    · split
      · split
        · rw [ih, listSwap_length]
        · rfl
      · split
        · rw [ih, listSwap_length]
        · rfl
    · rfl

lemma push_length (less : ℚ → ℚ → Bool) (l : List ℚ) (x : ℚ) :
    (push less l x).length = l.length + 1 := by
  simp [push, up, upFrom_length]

lemma pop_length (less : ℚ → ℚ → Bool) (l : List ℚ) :
    (pop less l).2.length = l.length - 1 := by
  simp only [pop, down, downFrom_length, listSwap_length, List.length_take]
  omega

end GoHeap

namespace V3

lemma balanceHeaps_totalSum (ds : DataStreamStats) :
    (balanceHeaps ds).totalSum = ds.totalSum := by
  unfold balanceHeaps; split
  · rfl
  · split
    · rfl
    · rfl

lemma balanceHeaps_count (ds : DataStreamStats) : (balanceHeaps ds).count = ds.count := by
  unfold balanceHeaps; split
  · rfl
  · split
    · rfl
    · rfl

lemma balanceHeaps_minVal (ds : DataStreamStats) : (balanceHeaps ds).minVal = ds.minVal := by
  unfold balanceHeaps; split
  · rfl
  · split
    · rfl
    · rfl

lemma balanceHeaps_maxVal (ds : DataStreamStats) : (balanceHeaps ds).maxVal = ds.maxVal := by
  unfold balanceHeaps; split
  · rfl
  · split
    · rfl
    · rfl

lemma balanceHeaps_recentData (ds : DataStreamStats) :
    (balanceHeaps ds).recentData = ds.recentData := by
  unfold balanceHeaps; split
  · rfl
  · split
    · rfl
    · rfl

lemma balanceHeaps_cached (ds : DataStreamStats) : (balanceHeaps ds).cached = ds.cached := by
  unfold balanceHeaps; split
  · rfl
  · split
    · rfl
    · rfl

lemma AddNumber_totalSum (ds : DataStreamStats) (num : ℚ) :
    (AddNumber ds num).totalSum = ds.totalSum + num := by
  simp only [AddNumber, balanceHeaps_totalSum]
  split <;> rfl

lemma AddNumber_count (ds : DataStreamStats) (num : ℚ) :
    (AddNumber ds num).count = ds.count + 1 := by
  simp only [AddNumber, balanceHeaps_count]
  split <;> rfl

lemma AddNumber_minVal (ds : DataStreamStats) (num : ℚ) :
    (AddNumber ds num).minVal = min (num : WithTop ℚ) ds.minVal := by
  simp only [AddNumber, balanceHeaps_minVal]
  have h : (if (num : WithTop ℚ) < ds.minVal then (num : WithTop ℚ) else ds.minVal) =
      min (num : WithTop ℚ) ds.minVal := by
    split
    · next h => exact (min_eq_left h.le).symm
    · next h => exact (min_eq_right (le_of_not_lt h)).symm
  split <;> simpa using h

lemma AddNumber_maxVal (ds : DataStreamStats) (num : ℚ) :
    (AddNumber ds num).maxVal = max (num : WithBot ℚ) ds.maxVal := by
  simp only [AddNumber, balanceHeaps_maxVal]
  have h : (if ds.maxVal < (num : WithBot ℚ) then (num : WithBot ℚ) else ds.maxVal) =
      max (num : WithBot ℚ) ds.maxVal := by
    split
    · next h => exact (max_eq_left h.le).symm
    · next h => exact (max_eq_right (le_of_not_lt h)).symm
  split <;> simpa using h

lemma AddNumber_recentData (ds : DataStreamStats) (num : ℚ) :
    (AddNumber ds num).recentData = ds.recentData.Add num := by
  simp only [AddNumber, balanceHeaps_recentData]
  split <;> rfl

lemma AddNumber_cached (ds : DataStreamStats) (num : ℚ) :
    (AddNumber ds num).cached = ds.cached := by
  simp only [AddNumber, balanceHeaps_cached]
  split <;> rfl

lemma AddNumber_cacheUpdated (ds : DataStreamStats) (num : ℚ) :
    (AddNumber ds num).cacheUpdated = false := rfl

lemma foldl_AddNumber_cacheUpdated (xs : List ℚ) (ds : DataStreamStats) (x : ℚ) :
    (List.foldl AddNumber (AddNumber ds x) xs).cacheUpdated = false := by
  induction xs generalizing ds x with
  | nil => exact AddNumber_cacheUpdated ds x
  | cons y ys ih => simpa only [List.foldl_cons] using ih (AddNumber ds x) y

lemma foldl_AddNumber_cached (xs : List ℚ) (ds : DataStreamStats) :
    (List.foldl AddNumber ds xs).cached = ds.cached := by
  induction xs generalizing ds with
  | nil => rfl
  | cons y ys ih => rw [List.foldl_cons, ih, AddNumber_cached]

lemma getCachedStats_of_invalid_nil_map (ds : DataStreamStats)
    (h1 : ds.cacheUpdated = false) (h2 : ds.cached.percentile = none) :
    GetCachedStats ds = none := by
  unfold GetCachedStats
  rw [h1]
  simp only [Bool.false_eq_true, if_false]
  rcases hm : (GetMedian ds).1 with _ | med
  · rfl
  · rcases hp : (GetPercentile ds 95).1 with _ | q95
    · rfl
    · simp only [h2]

end V3

/-- C3: the cache never returns at all once it is invalid.  After any
AddNumber the invalidation flag is false, so the next GetCachedStats takes
the recomputation path; that path assigns to the percentile map of the
cached field, which NewDataStreamStats leaves as a nil map (it allocates
only the unused cachePercentile field), so the call panics instead of
returning a fresh snapshot. -/
theorem c3_getCachedStats_panics_when_invalid (c : ℕ) (x : ℚ) (xs : List ℚ) :
    V3.GetCachedStats (V3.runStream c (x :: xs)) = none := by
  apply V3.getCachedStats_of_invalid_nil_map
  · simpa only [V3.runStream, List.foldl_cons] using
      V3.foldl_AddNumber_cacheUpdated xs (V3.NewDataStreamStats c) x
  · rw [V3.runStream, V3.foldl_AddNumber_cached]
    rfl

namespace V3

lemma foldl_AddNumber_totalSum (xs : List ℚ) (ds : DataStreamStats) :
    (List.foldl AddNumber ds xs).totalSum = ds.totalSum + xs.sum := by
  induction xs generalizing ds with
  | nil => simp
  | cons y ys ih =>
    rw [List.foldl_cons, ih, AddNumber_totalSum, List.sum_cons, add_assoc]

lemma foldl_AddNumber_count (xs : List ℚ) (ds : DataStreamStats) :
    (List.foldl AddNumber ds xs).count = ds.count + xs.length := by
  induction xs generalizing ds with
  | nil => simp
  | cons y ys ih =>
    rw [List.foldl_cons, ih, AddNumber_count, List.length_cons]
    push_cast
    ring

lemma foldl_AddNumber_minVal (xs : List ℚ) (ds : DataStreamStats) :
    (List.foldl AddNumber ds xs).minVal = min ds.minVal xs.minimum := by
  induction xs generalizing ds with
  | nil => simp
  | cons y ys ih =>
    rw [List.foldl_cons, ih, AddNumber_minVal, List.minimum_cons, min_comm (y : WithTop ℚ),
      min_assoc]

lemma foldl_AddNumber_maxVal (xs : List ℚ) (ds : DataStreamStats) :
    (List.foldl AddNumber ds xs).maxVal = max ds.maxVal xs.maximum := by
  induction xs generalizing ds with
  | nil => simp
  | cons y ys ih =>
    rw [List.foldl_cons, ih, AddNumber_maxVal, List.maximum_cons, max_comm (y : WithBot ℚ),
      max_assoc]

lemma runStream_totalSum (c : ℕ) (xs : List ℚ) : (runStream c xs).totalSum = xs.sum := by
  rw [runStream, foldl_AddNumber_totalSum]
  exact zero_add _

lemma runStream_count (c : ℕ) (xs : List ℚ) : (runStream c xs).count = xs.length := by
  rw [runStream, foldl_AddNumber_count]
  exact zero_add _

lemma runStream_minVal (c : ℕ) (xs : List ℚ) : (runStream c xs).minVal = xs.minimum := by
  rw [runStream, foldl_AddNumber_minVal]
  exact min_eq_right le_top

lemma runStream_maxVal (c : ℕ) (xs : List ℚ) : (runStream c xs).maxVal = xs.maximum := by
  rw [runStream, foldl_AddNumber_maxVal]
  exact max_eq_right bot_le

end V3

/-- C6: GetMean returns the arithmetic mean of the recorded values, the
running sum over the count, 0 when nothing has been recorded, and the
same value for any arrival order of the same multiset; GetMin and GetMax
return the least and greatest recorded value, which are the plus and
minus infinity sentinels of the WithTop and WithBot order exactly when
the stream is empty (List.minimum and List.maximum of an empty list). -/
theorem c6_mean_min_max_correct (c : ℕ) (xs ys : List ℚ) (h : List.Perm ys xs) :
    (V3.GetMean (V3.runStream c xs)).1 =
      (if xs.length = 0 then 0 else xs.sum / (xs.length : ℚ)) ∧
    (V3.GetMean (V3.runStream c ys)).1 = (V3.GetMean (V3.runStream c xs)).1 ∧
    (V3.GetMin (V3.runStream c xs)).1 = xs.minimum ∧
    (V3.GetMax (V3.runStream c xs)).1 = xs.maximum := by
  have hmean : ∀ zs : List ℚ, (V3.GetMean (V3.runStream c zs)).1 =
      (if zs.length = 0 then 0 else zs.sum / (zs.length : ℚ)) := by
    intro zs
    show (if (V3.runStream c zs).count = 0 then 0
      else (V3.runStream c zs).totalSum / ((V3.runStream c zs).count : ℚ)) = _
    rw [V3.runStream_count, V3.runStream_totalSum]
    by_cases hz : zs.length = 0
    · rw [if_pos (by exact_mod_cast hz), if_pos hz]
    · rw [if_neg (by exact_mod_cast hz), if_neg hz]
      norm_num
  refine ⟨hmean xs, ?_, ?_, ?_⟩
  · rw [hmean xs, hmean ys, h.length_eq, h.sum_eq]
  · show (V3.runStream c xs).minVal = xs.minimum
    exact V3.runStream_minVal c xs
  · show (V3.runStream c xs).maxVal = xs.maximum
    exact V3.runStream_maxVal c xs

/-- C6 witness: the theorem applied to the stream 5, 1, 9, 2 of the
specification example and a permutation of it. -/
theorem c6_witness :
    (V3.GetMean (V3.runStream 3 [5, 1, 9, 2])).1 =
      (if ([5, 1, 9, 2] : List ℚ).length = 0 then 0
       else ([5, 1, 9, 2] : List ℚ).sum / (([5, 1, 9, 2] : List ℚ).length : ℚ)) ∧
    (V3.GetMean (V3.runStream 3 [2, 9, 1, 5])).1 =
      (V3.GetMean (V3.runStream 3 [5, 1, 9, 2])).1 ∧
    (V3.GetMin (V3.runStream 3 [5, 1, 9, 2])).1 = ([5, 1, 9, 2] : List ℚ).minimum ∧
    (V3.GetMax (V3.runStream 3 [5, 1, 9, 2])).1 = ([5, 1, 9, 2] : List ℚ).maximum :=
  c6_mean_min_max_correct 3 [5, 1, 9, 2] [2, 9, 1, 5] (by decide)

namespace V3

lemma getSorted_sorted (rb : RingBuffer) : List.Sorted (· ≤ ·) (rb.GetSorted).1 :=
  List.sorted_insertionSort _ _

lemma nearestRank_pos (p : ℚ) (k : ℕ) (hp0 : 0 < p) (hk : 0 < k) :
    0 < ⌈p / 100 * (k : ℚ)⌉ := by
  have hkq : (0 : ℚ) < k := by exact_mod_cast hk
  exact Int.ceil_pos.mpr (by positivity)

lemma nearestRank_le (p : ℚ) (k : ℕ) (hp1 : p ≤ 100) (hk : 0 < k) :
    ⌈p / 100 * (k : ℚ)⌉ ≤ (k : ℤ) := by
  rw [Int.ceil_le]
  push_cast
  have hkq : (0 : ℚ) ≤ k := by positivity
  have h1 : p / 100 ≤ 1 := (div_le_one (by norm_num)).mpr hp1
  nlinarith

lemma getPercentile_formula (ds : DataStreamStats) (p : ℚ)
    (hp0 : 0 < p) (hp1 : p ≤ 100) (hne : (ds.recentData.GetSorted).1.length ≠ 0) :
    (GetPercentile ds p).1 =
      some ((ds.recentData.GetSorted).1.getD
        (⌈p / 100 * ((ds.recentData.GetSorted).1.length : ℚ)⌉ - 1).toNat 0) := by
  unfold GetPercentile
  dsimp only
  rw [if_neg hne]
  have hkpos : 0 < (ds.recentData.GetSorted).1.length := Nat.pos_of_ne_zero hne
  have hcpos := nearestRank_pos p _ hp0 hkpos
  have hcle := nearestRank_le p _ hp1 hkpos
  rw [if_neg (by omega : ¬ ⌈p / 100 * ((ds.recentData.GetSorted).1.length : ℚ)⌉ - 1 < 0)]
  have hb : (⌈p / 100 * ((ds.recentData.GetSorted).1.length : ℚ)⌉ - 1).toNat <
      (ds.recentData.GetSorted).1.length := by omega
  rw [List.getElem?_eq_getElem hb, List.getD_eq_getElem _ _ hb]

end V3

/-- C8: percentile monotonicity.  For a fixed engine state with a
non-empty window and ranks 0 < p1 ≤ p2 ≤ 100, GetPercentile returns
defined values for both ranks and the value at p1 is at most the value at
p2, because the sorted snapshot is indexed at nondecreasing positions. -/
theorem c8_percentile_monotone (ds : V3.DataStreamStats) (p1 p2 : ℚ)
    (hp0 : 0 < p1) (h12 : p1 ≤ p2) (hp1 : p2 ≤ 100)
    (hne : (ds.recentData.GetSorted).1.length ≠ 0) :
    ∃ v1 v2, (V3.GetPercentile ds p1).1 = some v1 ∧
      (V3.GetPercentile ds p2).1 = some v2 ∧ v1 ≤ v2 := by
  have h1 := V3.getPercentile_formula ds p1 hp0 (le_trans h12 hp1) hne
  have h2 := V3.getPercentile_formula ds p2 (lt_of_lt_of_le hp0 h12) hp1 hne
  refine ⟨_, _, h1, h2, ?_⟩
  have hkpos : 0 < (ds.recentData.GetSorted).1.length := Nat.pos_of_ne_zero hne
  have hc1pos := V3.nearestRank_pos p1 _ hp0 hkpos
  have hc1le := V3.nearestRank_le p1 _ (le_trans h12 hp1) hkpos
  have hc2le := V3.nearestRank_le p2 _ hp1 hkpos
  have hmono : ⌈p1 / 100 * ((ds.recentData.GetSorted).1.length : ℚ)⌉ ≤
      ⌈p2 / 100 * ((ds.recentData.GetSorted).1.length : ℚ)⌉ := by
    apply Int.ceil_mono
    have hkq : (0 : ℚ) ≤ ((ds.recentData.GetSorted).1.length : ℚ) := by positivity
    have : p1 / 100 ≤ p2 / 100 := by linarith
    nlinarith
  have hb1 : (⌈p1 / 100 * ((ds.recentData.GetSorted).1.length : ℚ)⌉ - 1).toNat <
      (ds.recentData.GetSorted).1.length := by omega
  have hb2 : (⌈p2 / 100 * ((ds.recentData.GetSorted).1.length : ℚ)⌉ - 1).toNat <
      (ds.recentData.GetSorted).1.length := by omega
  have hrel := (V3.getSorted_sorted ds.recentData).rel_get_of_le
    (a := ⟨_, hb1⟩) (b := ⟨_, hb2⟩) (Fin.mk_le_mk.mpr (by omega))
  rw [List.getD_eq_getElem _ _ hb1, List.getD_eq_getElem _ _ hb2]
  simpa [List.get_eq_getElem] using hrel

/-- C8 witness: the monotonicity theorem applied to the engine that has
recorded 1 and 2, at the ranks 50 and 100. -/
theorem c8_witness :
    ∃ v1 v2, (V3.GetPercentile (V3.runStream 5 [1, 2]) 50).1 = some v1 ∧
      (V3.GetPercentile (V3.runStream 5 [1, 2]) 100).1 = some v2 ∧ v1 ≤ v2 :=
  c8_percentile_monotone (V3.runStream 5 [1, 2]) 50 100 (by norm_num) (by norm_num)
    (by norm_num) (by with_unfolding_all decide)

/-- C9 amended: GetPercentile does not reject invalid ranks uniformly.
On a non-empty window a rank above 100 produces an out-of-range index and
panics, while a rank at or below 0 is silently clamped to index 0 and the
query returns the first element of the sorted snapshot, which is the
minimum of the window. -/
theorem c9_invalid_rank_behavior (ds : V3.DataStreamStats) (p : ℚ)
    (hne : (ds.recentData.GetSorted).1.length ≠ 0) :
    (100 < p → (V3.GetPercentile ds p).1 = none) ∧
    (p ≤ 0 → (V3.GetPercentile ds p).1 = some ((ds.recentData.GetSorted).1.getD 0 0) ∧
      ∀ y ∈ (ds.recentData.GetSorted).1, (ds.recentData.GetSorted).1.getD 0 0 ≤ y) := by
  have hkpos : 0 < (ds.recentData.GetSorted).1.length := Nat.pos_of_ne_zero hne
  constructor
  · intro hp
    unfold V3.GetPercentile
    dsimp only
    rw [if_neg hne]
    have hgt : ((ds.recentData.GetSorted).1.length : ℤ) <
        ⌈p / 100 * ((ds.recentData.GetSorted).1.length : ℚ)⌉ := by
      apply Int.lt_ceil.mpr
      push_cast
      have hkq : (0 : ℚ) < ((ds.recentData.GetSorted).1.length : ℚ) := by
        exact_mod_cast hkpos
      have h1 : (1 : ℚ) < p / 100 := (one_lt_div (by norm_num)).mpr hp
      nlinarith
    rw [if_neg (by omega : ¬ ⌈p / 100 * ((ds.recentData.GetSorted).1.length : ℚ)⌉ - 1 < 0)]
    exact List.getElem?_eq_none (by omega)
  · intro hp
    have hceil : ⌈p / 100 * ((ds.recentData.GetSorted).1.length : ℚ)⌉ ≤ 0 := by
      rw [show ((0 : ℤ) : ℤ) = ((0 : ℤ)) from rfl, Int.ceil_le]
      push_cast
      have hkq : (0 : ℚ) ≤ ((ds.recentData.GetSorted).1.length : ℚ) := by positivity
      have hp100 : p / 100 ≤ 0 := div_nonpos_iff.mpr (Or.inr ⟨hp, by norm_num⟩)
      exact mul_nonpos_of_nonpos_of_nonneg hp100 hkq
    constructor
    · unfold V3.GetPercentile
      dsimp only
      rw [if_neg hne]
      rw [if_pos (by omega : ⌈p / 100 * ((ds.recentData.GetSorted).1.length : ℚ)⌉ - 1 < 0)]
      rw [show ((0 : ℤ)).toNat = 0 from rfl, List.getElem?_eq_getElem hkpos,
        List.getD_eq_getElem _ _ hkpos]
    · intro y hy
      obtain ⟨n, hn⟩ := List.mem_iff_get.mp hy
      have hrel := (V3.getSorted_sorted ds.recentData).rel_get_of_le
        (a := ⟨0, hkpos⟩) (b := n) (Fin.mk_le_mk.mpr (Nat.zero_le _))
      rw [← hn, List.getD_eq_getElem _ _ hkpos]
      simpa [List.get_eq_getElem] using hrel

/-- C9 amended witness: the behavior theorem applied to the engine that
has recorded 1 and 2, at the rank 0. -/
theorem c9_witness :
    ((100 : ℚ) < 0 → (V3.GetPercentile (V3.runStream 5 [1, 2]) 0).1 = none) ∧
    ((0 : ℚ) ≤ 0 →
      (V3.GetPercentile (V3.runStream 5 [1, 2]) 0).1 =
        some (((V3.runStream 5 [1, 2]).recentData.GetSorted).1.getD 0 0) ∧
      ∀ y ∈ ((V3.runStream 5 [1, 2]).recentData.GetSorted).1,
        ((V3.runStream 5 [1, 2]).recentData.GetSorted).1.getD 0 0 ≤ y) :=
  c9_invalid_rank_behavior (V3.runStream 5 [1, 2]) 0 (by with_unfolding_all decide)

lemma fixed_step (dF : V3.DataStreamStats) (dP : Part001.DataStreamStats) (num : ℚ)
    (hl : dF.lower = dP.lower) (hu : dF.upper = dP.upper) (hn : dF.count = dP.count)
    (hc : dF.balanceCounter = (dP.lower.length : ℤ) - (dP.upper.length : ℤ)) :
    (V3.AddNumberFixed dF num).lower = (Part001.AddNumber dP num).lower ∧
    (V3.AddNumberFixed dF num).upper = (Part001.AddNumber dP num).upper ∧
    (V3.AddNumberFixed dF num).count = (Part001.AddNumber dP num).count ∧
    (V3.AddNumberFixed dF num).balanceCounter =
      (((Part001.AddNumber dP num).lower.length : ℤ) -
        ((Part001.AddNumber dP num).upper.length : ℤ)) := by
  simp only [V3.AddNumberFixed, V3.balanceHeapsFixed, Part001.AddNumber]
  rw [hl, hu, hn, hc]
  by_cases hins : (dP.lower.length = 0 ∨ num ≤ dP.lower.getD 0 0)
  · simp only [if_pos hins]
    by_cases hb1 : dP.upper.length < dP.lower.length
    · have e1 : 1 < (dP.lower.length : ℤ) - (dP.upper.length : ℤ) + 1 := by omega
      have e2 : dP.upper.length + 1 < (GoHeap.push maxHeapLess dP.lower num).length := by
        rw [GoHeap.push_length]; omega
      simp only [if_pos e1, if_pos e2, true_and]
      rw [GoHeap.pop_length, GoHeap.push_length, GoHeap.push_length]
      omega
    · have e1 : ¬ 1 < (dP.lower.length : ℤ) - (dP.upper.length : ℤ) + 1 := by omega
      have e2 : ¬ dP.upper.length + 1 < (GoHeap.push maxHeapLess dP.lower num).length := by
        rw [GoHeap.push_length]; omega
      simp only [if_neg e1, if_neg e2]
      by_cases hb2 : dP.lower.length + 1 < dP.upper.length
      · have e3 : (dP.lower.length : ℤ) - (dP.upper.length : ℤ) + 1 < 0 := by omega
        have e4 : (GoHeap.push maxHeapLess dP.lower num).length < dP.upper.length := by
          rw [GoHeap.push_length]; omega
        simp only [if_pos e3, if_pos e4, true_and]
        rw [GoHeap.pop_length, GoHeap.push_length, GoHeap.push_length]
        omega
      · have e3 : ¬ (dP.lower.length : ℤ) - (dP.upper.length : ℤ) + 1 < 0 := by omega
        have e4 : ¬ (GoHeap.push maxHeapLess dP.lower num).length < dP.upper.length := by
          rw [GoHeap.push_length]; omega
        simp only [if_neg e3, if_neg e4, true_and]
        rw [GoHeap.push_length]
        omega
  · simp only [if_neg hins]
    by_cases hb1 : dP.upper.length + 2 < dP.lower.length
    · have e1 : 1 < (dP.lower.length : ℤ) - (dP.upper.length : ℤ) - 1 := by omega
      have e2 : (GoHeap.push minHeapLess dP.upper num).length + 1 < dP.lower.length := by
        rw [GoHeap.push_length]; omega
      simp only [if_pos e1, if_pos e2, true_and]
      rw [GoHeap.pop_length, GoHeap.push_length, GoHeap.push_length]
      omega
    · have e1 : ¬ 1 < (dP.lower.length : ℤ) - (dP.upper.length : ℤ) - 1 := by omega
      have e2 : ¬ (GoHeap.push minHeapLess dP.upper num).length + 1 < dP.lower.length := by
        rw [GoHeap.push_length]; omega
      simp only [if_neg e1, if_neg e2]
      by_cases hb2 : dP.lower.length ≤ dP.upper.length
      · have e3 : (dP.lower.length : ℤ) - (dP.upper.length : ℤ) - 1 < 0 := by omega
        have e4 : dP.lower.length < (GoHeap.push minHeapLess dP.upper num).length := by
          rw [GoHeap.push_length]; omega
        simp only [if_pos e3, if_pos e4, true_and]
        rw [GoHeap.push_length, GoHeap.pop_length, GoHeap.push_length]
        omega
      · have e3 : ¬ (dP.lower.length : ℤ) - (dP.upper.length : ℤ) - 1 < 0 := by omega
        have e4 : ¬ dP.lower.length < (GoHeap.push minHeapLess dP.upper num).length := by
          rw [GoHeap.push_length]; omega
        simp only [if_neg e3, if_neg e4, true_and]
        rw [GoHeap.push_length]
        omega

lemma foldl_fixed_eq (xs : List ℚ) :
    ∀ (dF : V3.DataStreamStats) (dP : Part001.DataStreamStats),
    dF.lower = dP.lower → dF.upper = dP.upper → dF.count = dP.count →
    dF.balanceCounter = (dP.lower.length : ℤ) - (dP.upper.length : ℤ) →
    (List.foldl V3.AddNumberFixed dF xs).lower =
        (List.foldl Part001.AddNumber dP xs).lower ∧
      (List.foldl V3.AddNumberFixed dF xs).upper =
        (List.foldl Part001.AddNumber dP xs).upper ∧
      (List.foldl V3.AddNumberFixed dF xs).count =
        (List.foldl Part001.AddNumber dP xs).count ∧
      (List.foldl V3.AddNumberFixed dF xs).balanceCounter =
        (((List.foldl Part001.AddNumber dP xs).lower.length : ℤ) -
          ((List.foldl Part001.AddNumber dP xs).upper.length : ℤ)) := by
  induction xs with
  | nil => intro dF dP hl hu hn hc; exact ⟨hl, hu, hn, hc⟩
  | cons y ys ih =>
    intro dF dP hl hu hn hc
    obtain ⟨a, b, d, e⟩ := fixed_step dF dP y hl hu hn hc
    simpa only [List.foldl_cons] using ih _ _ a b d e

/-- C5 amended: once the signed counter is kept equal to the size
difference between the heaps, with the corrective move adjusting it by
two and the thresholds matching the direct comparisons, the counter
scheme and the direct size comparison of part_001 produce identical heap
partitions and the same GetMedian answer on every input stream. -/
theorem c5_fixed_counter_matches_direct (c : ℕ) (xs : List ℚ) :
    (V3.runStreamFixed c xs).lower = (Part001.runStream xs).lower ∧
    (V3.runStreamFixed c xs).upper = (Part001.runStream xs).upper ∧
    (V3.GetMedian (V3.runStreamFixed c xs)).1 =
      (Part001.GetMedian (Part001.runStream xs)).1 := by
  obtain ⟨hl, hu, hn, -⟩ := foldl_fixed_eq xs (V3.NewDataStreamStats c)
    Part001.NewDataStreamStats rfl rfl rfl (by simp [V3.NewDataStreamStats,
      Part001.NewDataStreamStats])
  unfold V3.runStreamFixed Part001.runStream V3.GetMedian Part001.GetMedian
  dsimp only
  rw [hl, hu, hn]
  exact ⟨rfl, rfl, rfl⟩

namespace V3

lemma rbinv_init (c : ℕ) (hc : 0 < c) : RBInv c [] (NewRingBuffer c) := by
  refine ⟨rfl, by simp [NewRingBuffer], ?_⟩
  rw [if_pos (by simpa using hc)]
  exact ⟨by simp [NewRingBuffer], rfl, rfl⟩

lemma rbinv_add (c : ℕ) (hc : 0 < c) (xs : List ℚ) (x : ℚ) (rb : RingBuffer)
    (h : RBInv c xs rb) : RBInv c (xs ++ [x]) (rb.Add x) := by
  obtain ⟨hcap, hlen, hrest⟩ := h
  have hmod : (xs.length + 1) % c = (xs.length % c + 1) % c :=
    (Nat.mod_add_mod xs.length c 1).symm
  refine ⟨hcap, by simp [RingBuffer.Add, hlen], ?_⟩
  by_cases hx : xs.length < c
  · rw [if_pos hx] at hrest
    obtain ⟨hdata, hhead, hsize⟩ := hrest
    obtain ⟨m, hm⟩ : ∃ m, c - xs.length = m + 1 := ⟨c - xs.length - 1, by omega⟩
    have hdata2 : (rb.Add x).data = xs ++ x :: List.replicate m 0 := by
      simp only [RingBuffer.Add, hdata, hhead, hm, List.replicate_succ]
      rw [List.set_append_right _ _ (le_refl xs.length), Nat.sub_self, List.set_cons_zero]
    have hhead2 : (rb.Add x).head = (xs.length + 1) % c := by
      simp [RingBuffer.Add, hhead, hcap]
    have hsize2 : (rb.Add x).size = xs.length + 1 := by
      simp [RingBuffer.Add, hsize, hcap, hx]
    by_cases hx1 : xs.length + 1 < c
    · rw [if_pos (by simpa using hx1)]
      refine ⟨?_, ?_, by simpa using hsize2⟩
      · rw [hdata2]
        have : c - (xs ++ [x]).length = m := by simp; omega
        rw [this]
        simp
      · rw [hhead2]
        simp [Nat.mod_eq_of_lt hx1]
    · have hce : xs.length + 1 = c := by omega
      rw [if_neg (by simpa using hx1)]
      refine ⟨xs ++ [x], [], ?_, ?_, ?_, ?_, by rw [hsize2, hce]⟩
      · unfold specWindow
        rw [show (xs ++ [x]).length - c = 0 by simp; omega, List.drop_zero, List.append_nil]
      · rw [hdata2]
        have hm0 : m = 0 := by omega
        simp [hm0]
      · rw [show (xs ++ [x]).length = c by simp; omega, Nat.mod_self]
        rfl
      · rw [hhead2, show (xs ++ [x]).length = c by simp; omega,
          show xs.length + 1 = c from hce, Nat.mod_self]
  · rw [if_neg hx] at hrest
    obtain ⟨A, B, hAB, hdata, hBlen, hhead, hsize⟩ := hrest
    have hn : c ≤ xs.length := le_of_not_lt hx
    have hmlt : xs.length % c < c := Nat.mod_lt xs.length hc
    have hwinlen : (specWindow c xs).length = c := by
      unfold specWindow
      simp [List.length_drop]
      omega
    have hABlen : A.length + B.length = c := by
      have := congrArg List.length hAB
      simp [hwinlen] at this
      omega
    obtain ⟨a, A2, rfl⟩ : ∃ a A2, A = a :: A2 := by
      cases A with
      | nil => exfalso; simp at hABlen; omega
      | cons a A2 => exact ⟨a, A2, rfl⟩
    have hdata2 : (rb.Add x).data = B ++ x :: A2 := by
      simp only [RingBuffer.Add, hdata, hhead, ← hBlen]
      rw [List.set_append_right _ _ (le_refl B.length), Nat.sub_self, List.set_cons_zero]
    have hhead2 : (rb.Add x).head = (xs.length % c + 1) % c := by
      simp [RingBuffer.Add, hhead, hcap]
    have hsize2 : (rb.Add x).size = c := by
      simp [RingBuffer.Add, hsize, hcap]
    have hwin2 : specWindow c (xs ++ [x]) = A2 ++ (B ++ [x]) := by
      unfold specWindow at hAB ⊢
      have h1 : (xs ++ [x]).length - c = (xs.length - c) + 1 := by simp; omega
      rw [h1, List.drop_append_eq_append_drop,
        show (xs.length - c) + 1 - xs.length = 0 by omega, List.drop_zero,
        ← List.drop_drop, hAB]
      simp
    rw [if_neg (by simp; omega)]
    by_cases hw : xs.length % c + 1 < c
    · have hm2 : (xs.length + 1) % c = xs.length % c + 1 := by
        rw [hmod, Nat.mod_eq_of_lt hw]
      refine ⟨A2, B ++ [x], ?_, ?_, ?_, ?_, hsize2⟩
      · rw [hwin2]
      · rw [hdata2]
        simp
      · simp [hm2, hBlen]
      · rw [hhead2, Nat.mod_eq_of_lt hw]
        simp [hm2]
    · have hwc : xs.length % c + 1 = c := by omega
      have hm2 : (xs.length + 1) % c = 0 := by
        rw [hmod, hwc, Nat.mod_self]
      have hA2 : A2 = [] := by
        have : A2.length = 0 := by
          simp at hABlen
          omega
        exact List.length_eq_zero.mp this
      subst hA2
      refine ⟨B ++ [x], [], ?_, ?_, ?_, ?_, hsize2⟩
      · rw [hwin2]
        simp
      · rw [hdata2]
        simp
      · simp [hm2]
      · rw [hhead2, hwc, Nat.mod_self]
        simp [hm2]

lemma rbinv_foldl (c : ℕ) (hc : 0 < c) (xs : List ℚ) :
    RBInv c xs (List.foldl RingBuffer.Add (NewRingBuffer c) xs) := by
  induction xs using List.reverseRecOn with
  | nil => exact rbinv_init c hc
  | append_singleton ys y ih =>
    rw [List.foldl_append]
    simpa using rbinv_add c hc ys y _ ih

lemma foldl_AddNumber_recentData (xs : List ℚ) (ds : DataStreamStats) :
    (List.foldl AddNumber ds xs).recentData =
      List.foldl RingBuffer.Add ds.recentData xs := by
  induction xs generalizing ds with
  | nil => rfl
  | cons y ys ih => simp only [List.foldl_cons, ih, AddNumber_recentData]

lemma runStream_recentData (c : ℕ) (xs : List ℚ) :
    (runStream c xs).recentData = List.foldl RingBuffer.Add (NewRingBuffer c) xs := by
  rw [runStream, foldl_AddNumber_recentData]
  rfl

lemma getSorted_runStream (c : ℕ) (hc : 0 < c) (xs : List ℚ) :
    ((runStream c xs).recentData.GetSorted).1 = specSortedWindow c xs := by
  rw [runStream_recentData]
  obtain ⟨hcap, hlen, hrest⟩ := rbinv_foldl c hc xs
  unfold RingBuffer.GetSorted specSortedWindow
  dsimp only
  by_cases hx : xs.length < c
  · rw [if_pos hx] at hrest
    obtain ⟨hdata, hhead, hsize⟩ := hrest
    rw [hdata, hsize, List.take_left]
    unfold specWindow
    rw [show xs.length - c = 0 by omega, List.drop_zero]
  · rw [if_neg hx] at hrest
    obtain ⟨A, B, hAB, hdata, hBlen, hhead, hsize⟩ := hrest
    rw [hdata] at hlen
    rw [hdata, hsize, hAB, ← hlen, List.take_length]
    refine List.eq_of_perm_of_sorted ?_ (List.sorted_insertionSort _ _)
      (List.sorted_insertionSort _ _)
    exact ((List.perm_insertionSort _ _).trans List.perm_append_comm).trans
      (List.perm_insertionSort _ _).symm

end V3

/-- C7: GetPercentile implements the nearest-rank formula over the
retained window.  On an engine of capacity c > 0 loaded with the stream
xs and a rank p in the interval (0, 100]: the window holds the
min(capacity, n) most recent values; on an empty stream the query returns
0; otherwise it returns the ascending sort of the window indexed at
ceil(p / 100 * k) - 1 clamped below by 0 (the toNat of the difference);
at rank 100 in particular the answer is the last element of the sorted
window, which lies in the window and bounds every window element from
above, and the concrete run with capacity 2 and stream 9, 1, 2 answers 2
at rank 100 because the 9 has been evicted. -/
theorem c7_percentile_window_nearest_rank (c : ℕ) (xs : List ℚ) (p : ℚ)
    (hc : 0 < c) (hp0 : 0 < p) (hp1 : p ≤ 100) :
    (specWindow c xs).length = min c xs.length ∧
    (xs = [] → (V3.GetPercentile (V3.runStream c xs) p).1 = some 0) ∧
    (xs ≠ [] → (V3.GetPercentile (V3.runStream c xs) p).1 =
      some ((specSortedWindow c xs).getD
        (⌈p / 100 * ((specWindow c xs).length : ℚ)⌉ - 1).toNat 0)) ∧
    (xs ≠ [] → ∀ m ∈ specWindow c xs,
      m ≤ (specSortedWindow c xs).getD ((specWindow c xs).length - 1) 0) ∧
    (xs ≠ [] →
      (specSortedWindow c xs).getD ((specWindow c xs).length - 1) 0 ∈ specWindow c xs) ∧
    (xs ≠ [] → (V3.GetPercentile (V3.runStream c xs) 100).1 =
      some ((specSortedWindow c xs).getD ((specWindow c xs).length - 1) 0)) ∧
    (V3.GetPercentile (V3.runStream 2 [9, 1, 2]) 100).1 = some 2 := by
  have hgs := V3.getSorted_runStream c hc xs
  have hwl : (specWindow c xs).length = min c xs.length := by
    unfold specWindow
    simp only [List.length_drop]
    omega
  have hsw : (specSortedWindow c xs).length = (specWindow c xs).length :=
    (List.perm_insertionSort _ _).length_eq
  have hsorted : List.Sorted (· ≤ ·) (specSortedWindow c xs) :=
    List.sorted_insertionSort _ _
  have hperm : List.Perm (specSortedWindow c xs) (specWindow c xs) :=
    List.perm_insertionSort _ _
  refine ⟨hwl, ?_, ?_, ?_, ?_, ?_, by with_unfolding_all decide⟩
  · intro h
    subst h
    rfl
  · intro hxe
    have hxl : 0 < xs.length := List.length_pos.mpr hxe
    have hne : ((V3.runStream c xs).recentData.GetSorted).1.length ≠ 0 := by
      rw [hgs]
      omega
    have hthm := V3.getPercentile_formula (V3.runStream c xs) p hp0 hp1 hne
    rw [hgs, hsw] at hthm
    exact hthm
  · intro hxe m hm
    have hxl : 0 < xs.length := List.length_pos.mpr hxe
    have hkpos : 0 < (specSortedWindow c xs).length := by omega
    have hms : m ∈ specSortedWindow c xs := hperm.mem_iff.mpr hm
    obtain ⟨n, hn⟩ := List.mem_iff_get.mp hms
    have hbl : (specWindow c xs).length - 1 < (specSortedWindow c xs).length := by omega
    have hrel := hsorted.rel_get_of_le (a := n) (b := ⟨(specWindow c xs).length - 1, hbl⟩)
      (by have := n.isLt; exact Fin.le_def.mpr (by simp; omega))
    rw [← hn, List.getD_eq_getElem _ _ hbl]
    simpa [List.get_eq_getElem] using hrel
  · intro hxe
    have hxl : 0 < xs.length := List.length_pos.mpr hxe
    have hbl : (specWindow c xs).length - 1 < (specSortedWindow c xs).length := by omega
    rw [List.getD_eq_getElem _ _ hbl]
    exact hperm.mem_iff.mp (List.getElem_mem hbl)
  · intro hxe
    have hxl : 0 < xs.length := List.length_pos.mpr hxe
    have hne : ((V3.runStream c xs).recentData.GetSorted).1.length ≠ 0 := by
      rw [hgs]
      omega
    have hthm := V3.getPercentile_formula (V3.runStream c xs) 100 (by norm_num)
      (le_refl 100) hne
    rw [hgs, hsw] at hthm
    rw [hthm]
    have he1 : (100 : ℚ) / 100 * ((specWindow c xs).length : ℚ) =
        ((specWindow c xs).length : ℚ) := by
      norm_num
    rw [he1, Int.ceil_natCast]
    have he2 : (((specWindow c xs).length : ℤ) - 1).toNat = (specWindow c xs).length - 1 := by
      omega
    rw [he2]

/-- C7 witness: the nearest-rank theorem applied at capacity 2, stream
9, 1, 2 and rank 95. -/
theorem c7_witness :
    (specWindow 2 [9, 1, 2]).length = min 2 ([9, 1, 2] : List ℚ).length ∧
    (([9, 1, 2] : List ℚ) = [] →
      (V3.GetPercentile (V3.runStream 2 [9, 1, 2]) 95).1 = some 0) ∧
    (([9, 1, 2] : List ℚ) ≠ [] →
      (V3.GetPercentile (V3.runStream 2 [9, 1, 2]) 95).1 =
        some ((specSortedWindow 2 [9, 1, 2]).getD
          (⌈(95 : ℚ) / 100 * ((specWindow 2 [9, 1, 2]).length : ℚ)⌉ - 1).toNat 0)) ∧
    (([9, 1, 2] : List ℚ) ≠ [] → ∀ m ∈ specWindow 2 [9, 1, 2],
      m ≤ (specSortedWindow 2 [9, 1, 2]).getD ((specWindow 2 [9, 1, 2]).length - 1) 0) ∧
    (([9, 1, 2] : List ℚ) ≠ [] →
      (specSortedWindow 2 [9, 1, 2]).getD ((specWindow 2 [9, 1, 2]).length - 1) 0 ∈
        specWindow 2 [9, 1, 2]) ∧
    (([9, 1, 2] : List ℚ) ≠ [] →
      (V3.GetPercentile (V3.runStream 2 [9, 1, 2]) 100).1 =
        some ((specSortedWindow 2 [9, 1, 2]).getD ((specWindow 2 [9, 1, 2]).length - 1) 0)) ∧
    (V3.GetPercentile (V3.runStream 2 [9, 1, 2]) 100).1 = some 2 :=
  c7_percentile_window_nearest_rank 2 [9, 1, 2] 95 (by norm_num) (by norm_num) (by norm_num)
